import Mathlib

/-!
Verification development for the xprv OpenAPI generator
(scripts/xprv-gen-openapi).  We shallowly embed the generator's pure
logic: path joining (utils.ts), the undefined-splitting and triviality
predicates (type-utils.ts), the schema synthesizer and component table
(schema-generator.ts / openapi-builder.ts), response merging
(openapi-builder.ts), the per-handler response assembly and path
parameter back-fill (route-traversal.ts), and the internal-error
response selection (index.ts).
-/

/-- A JSON value; schemas produced by the generator are JSON values. -/
inductive Json where
  | null : Json
  | bool (b : Bool) : Json
  | num (n : Int) : Json
  | str (s : String) : Json
  | arr (elems : List Json) : Json
  | obj (fields : List (String × Json)) : Json
deriving Repr

/-- JavaScript truthiness of a JSON value (objects and arrays are
always truthy, as in JS where they are reference values). -/
def jsTruthy : Json → Bool
  | Json.null => false
  | Json.bool b => b
  | Json.num n => n != 0
  | Json.str s => s ≠ ""
  | Json.arr _ => true
  | Json.obj _ => true

/-- Truthiness of a possibly-absent value (`undefined` is falsy). -/
def jsOptTruthy : Option Json → Bool
  | none => false
  | some j => jsTruthy j

/-- First-match key lookup in an association list (JS object /
`Map.get` semantics for records with unique keys). -/
def lookupKey {α : Type} (m : List (String × α)) (k : String) : Option α :=
  (m.find? (fun p => p.1 == k)).map (fun p => p.2)

/-- `a ?? b` on possibly-absent values. -/
def optionOr {α : Type} (a b : Option α) : Option α :=
  match a with
  | some v => some v
  | none => b

/-- JS object spread `\x7b...a, ...b\x7d`: keys of `a` in order with
values overridden by `b` where present, then keys of `b` not in `a`. -/
def recordMerge {α : Type} (a b : List (String × α)) : List (String × α) :=
  a.map (fun p =>
    match b.find? (fun q => q.1 == p.1) with
    | some q => (p.1, q.2)
    | none => p)
  ++ b.filter (fun q => !(a.any (fun p => p.1 == q.1)))

/-- `Map.set` semantics: update the existing entry in place, else
append at the end (JS `Map` preserves first-insertion order). -/
def mapSet {α : Type} (m : List (String × α)) (k : String) (v : α) : List (String × α) :=
  if m.any (fun p => p.1 == k) then
    m.map (fun p => if p.1 == k then (k, v) else p)
  else
    m ++ [(k, v)]

/-! ## joinPaths (scripts/xprv-gen-openapi/utils.ts) -/

/-- Helper for `replace(/\/+/g, "/")`: the flag records whether the
previous emitted character was a slash, so a run collapses to one. -/
def collapseSlashesAux : Bool → List Char → List Char
  | _, [] => []
  | prevSlash, c :: rest =>
    if c = '/' then
      if prevSlash then collapseSlashesAux true rest
      else '/' :: collapseSlashesAux true rest
    else c :: collapseSlashesAux false rest

/-- `replace(/\/+/g, "/")`: collapse every run of slashes to one. -/
def collapseSlashes (l : List Char) : List Char :=
  collapseSlashesAux false l

/-- `joinPaths(base, segment)` from utils.ts: a `"/"` base becomes
empty, else one trailing slash is stripped (`replace(/\/$/, "")`); one
leading slash is stripped from the segment; the non-empty parts are
joined with `/` (`filter(Boolean).join("/")`); a `/` is prefixed,
repeated slashes collapsed, and an empty result normalizes to `/`.
String operations are modeled on the underlying character lists. -/
def joinPaths (base segment : String) : String :=
  let cleanBase : List Char :=
    if base = "/" then []
    else if base.data.getLast? = some '/' then base.data.dropLast else base.data
  let cleanSegment : List Char :=
    match segment.data with
    | '/' :: rest => rest
    | l => l
  let parts := ([cleanBase, cleanSegment]).filter (fun l => l ≠ [])
  let combined : List Char :=
    match parts with
    | [] => []
    | p :: ps => ps.foldl (fun acc q => acc ++ '/' :: q) p
  let collapsed := collapseSlashes ('/' :: combined)
  if collapsed = [] then "/" else String.mk collapsed

/-- Detects two consecutive slashes anywhere in a character list. -/
def hasDoubleSlash : List Char → Bool
  | [] => false
  | [_] => false
  | a :: b :: rest => (a = '/' && b = '/') || hasDoubleSlash (b :: rest)

/-- Kind of a declaration attached to a symbol. -/
inductive DeclKind where
  | interfaceDecl : DeclKind
  | classDecl : DeclKind
  | typeAliasDecl : DeclKind
  | enumDecl : DeclKind
  | variableDecl : DeclKind
  | otherDecl : DeclKind
deriving DecidableEq, Repr

/-- A ts-morph symbol: a name and its declarations' kinds. -/
structure TsSymbol where
  name : String
  decls : List DeclKind
deriving DecidableEq, Repr

/-- The `Node.isInterfaceDeclaration/... ` test used by
`tryGenerateSchemaByName`. -/
def DeclKind.isNamedDecl : DeclKind → Bool
  | DeclKind.interfaceDecl => true
  | DeclKind.classDecl => true
  | DeclKind.typeAliasDecl => true
  | DeclKind.enumDecl => true
  | _ => false

/-- A ts-morph type.  Object types carry their symbol (if any), type
arguments, own properties (raw name, declared-optional flag, type at
the resolved declaration site) and string index signature type. -/
inductive Ty where
  | neverT : Ty
  | anyT : Ty
  | unknownT : Ty
  | voidT : Ty
  | nullT : Ty
  | undefT : Ty
  | boolT : Ty
  | numT : Ty
  | strT : Ty
  | strLit (s : String) : Ty
  | numLit (n : Int) : Ty
  | boolLit (b : Bool) : Ty
  | special (text : String) : Ty
  | tuple (elems : List Ty) : Ty
  | arrOf (elem : Option Ty) : Ty
  | inter (parts : List Ty) : Ty
  | union (parts : List Ty) : Ty
  | obj (sym : Option TsSymbol) (args : List Ty)
      (props : List (String × Bool × Ty)) (strIndex : Option Ty) : Ty
deriving Repr

def Ty.isNever : Ty → Bool | Ty.neverT => true | _ => false

def Ty.isAny : Ty → Bool | Ty.anyT => true | _ => false

def Ty.isUnknown : Ty → Bool | Ty.unknownT => true | _ => false

def Ty.isVoid : Ty → Bool | Ty.voidT => true | _ => false

def Ty.isNull : Ty → Bool | Ty.nullT => true | _ => false

def Ty.isUndefined : Ty → Bool | Ty.undefT => true | _ => false

def Ty.isBoolean : Ty → Bool | Ty.boolT => true | _ => false

def Ty.isNumber : Ty → Bool | Ty.numT => true | _ => false

def Ty.isString : Ty → Bool | Ty.strT => true | _ => false

def Ty.isStringLiteral : Ty → Bool | Ty.strLit _ => true | _ => false

def Ty.isNumberLiteral : Ty → Bool | Ty.numLit _ => true | _ => false

def Ty.isBooleanLiteral : Ty → Bool | Ty.boolLit _ => true | _ => false

def Ty.isTuple : Ty → Bool | Ty.tuple _ => true | _ => false

def Ty.isArray : Ty → Bool | Ty.arrOf _ => true | _ => false

def Ty.isIntersection : Ty → Bool | Ty.inter _ => true | _ => false

def Ty.isUnion : Ty → Bool | Ty.union _ => true | _ => false

def Ty.isObject : Ty → Bool | Ty.obj _ _ _ _ => true | _ => false

def Ty.getSymbol : Ty → Option TsSymbol
  | Ty.obj s _ _ _ => s
  | _ => none

def Ty.getTypeArguments : Ty → List Ty
  | Ty.obj _ args _ _ => args
  | _ => []

def Ty.getUnionTypes : Ty → List Ty
  | Ty.union parts => parts
  | _ => []

def Ty.getIntersectionTypes : Ty → List Ty
  | Ty.inter parts => parts
  | _ => []

def Ty.getTupleElements : Ty → List Ty
  | Ty.tuple elems => elems
  | _ => []

def Ty.getArrayElementType : Ty → Option Ty
  | Ty.arrOf e => e
  | _ => none

def Ty.getProperties : Ty → List (String × Bool × Ty)
  | Ty.obj _ _ props _ => props
  | _ => []

def Ty.getStringIndexType : Ty → Option Ty
  | Ty.obj _ _ _ idx => idx
  | _ => none

/-- `type.getText()`: only the textual special-case aliases render to
the strings the generator matches on. -/
def Ty.getText : Ty → String
  | Ty.special t => t
  | _ => ""

/-- `name.startsWith("__")`, on the character list so it computes by
reduction. -/
def startsWithDunder (name : String) : Bool :=
  match name.data with
  | '_' :: '_' :: _ => true
  | _ => false

/-- `cleanSymbolName` from utils.ts: strip a leading `__`. -/
def cleanSymbolName (name : String) : String :=
  if startsWithDunder name then String.mk (name.data.drop 2) else name

/-! ## type-utils.ts -/

/-- Result of `splitUndefined`. -/
structure SplitResult where
  types : List Ty
  optional : Bool
deriving Repr

/-- `splitUndefined` from type-utils.ts: filter `undefined` out of a
union's members; `optional` records whether any member was removed. -/
def splitUndefined (type' : Ty) : SplitResult :=
  if type'.isUnion then
    let all := type'.getUnionTypes
    let filtered := all.filter (fun t => !t.isUndefined)
    { types := filtered, optional := filtered.length ≠ all.length }
  else
    { types := [type'], optional := false }

/-- `isTrivialRequestComponent` on a present type (the recursion of
type-utils.ts works on plain `Type` values). -/
def isTrivialRequestComponentCore : Ty → Bool
  | Ty.undefT => true
  | Ty.unknownT => true
  | Ty.anyT => true
  | Ty.voidT => true
  | Ty.neverT => true
  | Ty.union parts => parts.attach.all (fun u => isTrivialRequestComponentCore u.1)
  | Ty.obj _ _ props idx => props.isEmpty && idx.isNone
  | _ => false
decreasing_by
  have := List.sizeOf_lt_of_mem u.2
  simp only [Ty.union.sizeOf_spec]
  omega

/-- `isTrivialRequestComponent` from type-utils.ts (argument may be
absent). -/
def isTrivialRequestComponent : Option Ty → Bool
  | none => true
  | some t => isTrivialRequestComponentCore t

/-- `hasRequestValidation` from type-utils.ts. -/
def hasRequestValidation : Option Ty → Bool
  | none => false
  | some requestType =>
    let args := requestType.getTypeArguments
    if args.length < 4 then false
    else args.any (fun arg => !isTrivialRequestComponent (some arg))

/-! ## Responses (types.ts, openapi-builder.ts, index.ts) -/

/-- `ResponseRepresentation` from types.ts.  Header values (the
`required`/`schema` objects) are kept as opaque JSON values. -/
structure ResponseRepresentation where
  status : String
  description : String
  schema : Option Json := none
  headers : Option (List (String × Json)) := none
deriving Repr

/-- `cloneResponse` from openapi-builder.ts: copy status, description
and schema; shallow-copy the headers record when present. -/
def cloneResponse (response : ResponseRepresentation) : ResponseRepresentation :=
  let clone : ResponseRepresentation :=
    { status := response.status, description := response.description,
      schema := response.schema }
  match response.headers with
  | some hs => { clone with headers := some hs }
  | none => clone

/-- `findResponseByStatus` from openapi-builder.ts: first response
with the given status, cloned; a non-empty description argument
overrides the clone's description (`if (description)`). -/
def findResponseByStatus (responses : List ResponseRepresentation)
    (status : String) (description : Option String) :
    Option ResponseRepresentation :=
  match responses.find? (fun r => r.status == status) with
  | none => none
  | some match' =>
    let cloned := cloneResponse match'
    match description with
    | some d => if d ≠ "" then some { cloned with description := d } else some cloned
    | none => some cloned

/-- Selection of the per-operation internal-error response in
index.ts `main` (lines 71-73): prefer the `"500"` entry retitled
`"Internal Server Error"`, else clone the first extracted response,
else none. -/
def selectInternalErrorResponse (internalResponses : List ResponseRepresentation) :
    Option ResponseRepresentation :=
  match findResponseByStatus internalResponses "500" (some "Internal Server Error") with
  | some r => some r
  | none =>
    match internalResponses.head? with
    | some first => some (cloneResponse first)
    | none => none

/-- Per-handler response assembly from `traverseRoutes`
(route-traversal.ts lines 237-243): the declared responses, then a
clone of the internal-error response when configured, then a clone of
the validation-error response when configured and
`hasRequestValidation(requestType)` holds. -/
def buildHandlerResponses (declared : List ResponseRepresentation)
    (internalServerErrorResponse validationErrorResponse : Option ResponseRepresentation)
    (requestType : Option Ty) : List ResponseRepresentation :=
  let responses := declared
  let responses :=
    match internalServerErrorResponse with
    | some r => responses ++ [cloneResponse r]
    | none => responses
  match validationErrorResponse with
  | some v =>
    if hasRequestValidation requestType then responses ++ [cloneResponse v]
    else responses
  | none => responses

/-- Parameter location (`in` field of a parameter object). -/
inductive ParamLocation where
  | query : ParamLocation
  | header : ParamLocation
  | path : ParamLocation
deriving DecidableEq, BEq, Repr

/-- `ParameterRepresentation` from types.ts (`in` renamed to
`location`, a Lean keyword). -/
structure ParameterRepresentation where
  name : String
  location : ParamLocation
  required : Bool
  schema : Json
deriving Repr

/-- A character matched by `[A-Za-z0-9_]`. -/
def wordChar (c : Char) : Bool := c.isAlpha || c.isDigit || c = '_'

/-- Scanner equivalent to `pathValue.match(/:([A-Za-z0-9_]+)/g)` with
the leading `:` sliced off each match: left-to-right, non-overlapping,
maximal word-character runs of length at least one after a colon.  The
accumulator holds the reversed characters of the run being read when
inside a candidate match. -/
def pathTokensAux : Option (List Char) → List Char → List String
  | acc, [] =>
    (match acc with
     | some (c :: cs) => [String.mk ((c :: cs).reverse)]
     | _ => [])
  | some acc, c :: rest =>
    if wordChar c then pathTokensAux (some (c :: acc)) rest
    else
      (match acc with
       | [] => []
       | a :: as => [String.mk ((a :: as).reverse)]) ++
      (if c = ':' then pathTokensAux (some []) rest else pathTokensAux none rest)
  | none, c :: rest =>
    if c = ':' then pathTokensAux (some []) rest else pathTokensAux none rest

/-- The placeholder names found in a path pattern. -/
def pathPlaceholders (pathValue : String) : List String :=
  pathTokensAux none pathValue.data

/-- The back-filled parameter pushed for an uncovered placeholder. -/
def backfilledPathParam (name : String) : ParameterRepresentation :=
  { name := name, location := ParamLocation.path, required := true,
    schema := Json.obj [("type", Json.str "string")] }

/-- `addPathParameters` from route-traversal.ts: collect the names of
the declared path parameters, then append a required string parameter
for every placeholder match whose name is not in that set.  The set is
computed once, before the loop. -/
def addPathParameters (pathValue : String)
    (parameters : List ParameterRepresentation) : List ParameterRepresentation :=
  let pathParams :=
    (parameters.filter (fun p => p.location == ParamLocation.path)).map (fun p => p.name)
  let matchList := pathPlaceholders pathValue
  parameters ++
    (matchList.filter (fun name => !(pathParams.contains name))).map backfilledPathParam

/-- The `merge` closure of `OpenApiBuilder.buildResponses`: fold one
incoming response into the status-keyed map.  On a collision, headers
are spread (`\x7b...existing, ...incoming\x7d`), schemas combine into a
`oneOf` when both are (truthy) present else whichever is present
(`existing.schema ?? incoming.schema`), and the description keeps the
existing value when it is truthy and differs from the synthesized
`"HTTP <status>"`, else takes the incoming one (descriptions are
always present strings, so the trailing `?? descriptionBase` and
`?? "HTTP <status>"` fallbacks of the source are identities). -/
def mergeTwoResponses (existing incoming : ResponseRepresentation) :
    ResponseRepresentation :=
  let combinedHeaders :=
    recordMerge (existing.headers.getD []) (incoming.headers.getD [])
  let schema : Option Json :=
    if jsOptTruthy existing.schema && jsOptTruthy incoming.schema then
      some (Json.obj [("oneOf",
        Json.arr [existing.schema.getD Json.null, incoming.schema.getD Json.null])])
    else optionOr existing.schema incoming.schema
  let descriptionBase := existing.description
  let effectiveDescription :=
    if descriptionBase ≠ "" ∧ descriptionBase ≠ ("HTTP " ++ incoming.status) then
      descriptionBase
    else incoming.description
  let base : ResponseRepresentation :=
    { status := incoming.status, description := effectiveDescription }
  let withSchema :=
    match schema with
    | some s => if jsTruthy s then { base with schema := some s } else base
    | none => base
  match combinedHeaders with
  | [] => withSchema
  | _ :: _ => { withSchema with headers := some combinedHeaders }

def mergeResponseInto (merged : List (String × ResponseRepresentation))
    (incoming : ResponseRepresentation) : List (String × ResponseRepresentation) :=
  match lookupKey merged incoming.status with
  | none => mapSet merged incoming.status incoming
  | some existing => mapSet merged incoming.status (mergeTwoResponses existing incoming)

/-- `responseRepresentationToObject` from openapi-builder.ts. -/
def responseRepresentationToObject (response : ResponseRepresentation) : Json :=
  Json.obj ([("description", Json.str response.description)]
    ++ (match response.headers with
        | some hs => [("headers", Json.obj hs)]
        | none => [])
    ++ (match response.schema with
        | some s =>
          if jsTruthy s then
            [("content", Json.obj [("application/json", Json.obj [("schema", s)])])]
          else []
        | none => []))

/-- `OpenApiBuilder.buildResponses`: fold all responses into the
status-keyed map, then render each entry. -/
def buildResponses (responses : List ResponseRepresentation) : List (String × Json) :=
  (responses.foldl mergeResponseInto []).map
    (fun p => (p.1, responseRepresentationToObject p.2))

def wMergeR1 : ResponseRepresentation :=
  { status := "400", description := "Bad Request",
    schema := some (Json.obj [("type", Json.str "object")]) }

def wMergeR2 : ResponseRepresentation :=
  { status := "400", description := "HTTP 400",
    schema := some (Json.obj [("type", Json.str "string")]) }

/-!
Size measure used for the termination of the schema synthesizer (the
padding constants give room for the wrapper lists the code builds,
e.g. `splitUndefined` returning a singleton list).
-/
mutual
def tySize : Ty → Nat
  | Ty.tuple elems => 1 + tyListSize elems
  | Ty.arrOf e => 1 + tyOptSize e
  | Ty.inter parts => 1 + tyListSize parts
  | Ty.union parts => 1 + tyListSize parts
  | Ty.obj _ args props idx => 1 + tyListSize args + tyPropsSize props + tyOptSize idx
  | _ => 0

def tyListSize : List Ty → Nat
  | [] => 0
  | t :: ts => tySize t + 1 + tyListSize ts

def tyPropsSize : List (String × Bool × Ty) → Nat
  | [] => 0
  | p :: ps => tySize p.2.2 + 3 + tyPropsSize ps

def tyOptSize : Option Ty → Nat
  | none => 0
  | some t => tySize t + 1
end

def tyListSize_mem_le {t : Ty} {ts : List Ty} (h : t ∈ ts) :
    tySize t + 1 ≤ tyListSize ts := by
  induction ts with
  | nil => simp at h
  | cons a rest ih =>
    rcases List.mem_cons.mp h with rfl | hmem
    · rw [tyListSize]
      omega
    · rw [tyListSize]
      have := ih hmem
      omega

def tyListSize_filter_le (p : Ty → Bool) (ts : List Ty) :
    tyListSize (ts.filter p) ≤ tyListSize ts := by
  induction ts with
  | nil => simp
  | cons a rest ih =>
    rw [List.filter_cons]
    by_cases hp : p a
    · rw [if_pos hp, tyListSize, tyListSize]
      omega
    · rw [if_neg hp, tyListSize]
      omega

def tyPropsSize_mem_le {x : String × Bool × Ty}
    {props : List (String × Bool × Ty)} (h : x ∈ props) :
    tySize x.2.2 + 3 ≤ tyPropsSize props := by
  induction props with
  | nil => simp at h
  | cons a rest ih =>
    rcases List.mem_cons.mp h with rfl | hmem
    · rw [tyPropsSize]
      omega
    · rw [tyPropsSize]
      have := ih hmem
      omega

def tyListSize_splitUndefined_le (t : Ty) :
    tyListSize (splitUndefined t).types ≤ tySize t + 1 := by
  cases t with
  | union parts =>
    simp only [splitUndefined, Ty.isUnion, if_pos, Ty.getUnionTypes]
    have := tyListSize_filter_le (fun u => !u.isUndefined) parts
    rw [tySize]
    omega
  | tuple elems => simp [splitUndefined, Ty.isUnion, tyListSize, tySize]
  | arrOf e => simp [splitUndefined, Ty.isUnion, tyListSize, tySize]
  | inter parts => simp [splitUndefined, Ty.isUnion, tyListSize, tySize]
  | obj s a p i => simp [splitUndefined, Ty.isUnion, tyListSize, tySize]
  | neverT => simp [splitUndefined, Ty.isUnion, tyListSize, tySize]
  | anyT => simp [splitUndefined, Ty.isUnion, tyListSize, tySize]
  | unknownT => simp [splitUndefined, Ty.isUnion, tyListSize, tySize]
  | voidT => simp [splitUndefined, Ty.isUnion, tyListSize, tySize]
  | nullT => simp [splitUndefined, Ty.isUnion, tyListSize, tySize]
  | undefT => simp [splitUndefined, Ty.isUnion, tyListSize, tySize]
  | boolT => simp [splitUndefined, Ty.isUnion, tyListSize, tySize]
  | numT => simp [splitUndefined, Ty.isUnion, tyListSize, tySize]
  | strT => simp [splitUndefined, Ty.isUnion, tyListSize, tySize]
  | strLit s => simp [splitUndefined, Ty.isUnion, tyListSize, tySize]
  | numLit n => simp [splitUndefined, Ty.isUnion, tyListSize, tySize]
  | boolLit b => simp [splitUndefined, Ty.isUnion, tyListSize, tySize]
  | special t => simp [splitUndefined, Ty.isUnion, tyListSize, tySize]

/-- The external `ts-json-schema-generator` library, treated as an
oracle: `createSchema(name)` may throw (`Except.error`), return a
falsy value (`Except.ok none`, the `if (!schema) return null` case),
or return a schema object. -/
structure SchemaOracle where
  createSchema : String → Except Unit Json

/-- Component table of the generator (`this.components`), a JS `Map`
with string keys. -/
abbrev Components := List (String × Json)

/-- `if (!this.components.has(defName)) this.components.set(...)`. -/
def insertIfAbsent (components : Components) (k : String) (v : Json) : Components :=
  if components.any (fun p => p.1 == k) then components else components ++ [(k, v)]

/-- Field lookup on a JSON object value. -/
def Json.getField : Json → String → Option Json
  | Json.obj fields, k => lookupKey fields k
  | _, _ => none

/-- `delete obj[k]` / rest-destructuring without `k`. -/
def Json.removeField : Json → String → Json
  | Json.obj fields, k => Json.obj (fields.filter (fun p => !(p.1 == k)))
  | j, _ => j

/-- `Object.keys(obj).length`. -/
def Json.fieldCount : Json → Nat
  | Json.obj fields => fields.length
  | _ => 0

/-- The `definitions` entries emitted alongside a nominal schema
(empty when the `definitions` key is absent; the library's
`definitions` value, when present, is an object). -/
def nominalDefinitions (schema0 : Json) : List (String × Json) :=
  match schema0.getField "definitions" with
  | some (Json.obj defs) => defs
  | _ => []

/-- The fragment returned for a nominal schema: `definitions` is
deleted when present (`delete schema.definitions`), and a top-level
`$schema` tag is stripped when other fields remain
(`const { $schema, ...rest } = schema` and the
`Object.keys(rest).length > 0 ? rest : schema` choice). -/
def nominalResultSchema (schema0 : Json) : Json :=
  let schema1 :=
    match schema0.getField "definitions" with
    | some (Json.obj _) => schema0.removeField "definitions"
    | _ => schema0
  if (schema1.getField "$schema").isSome then
    let rest := schema1.removeField "$schema"
    if rest.fieldCount > 0 then rest else schema1
  else schema1

/-- Fold the emitted definitions into the component table, skipping
names already present. -/
def insertDefinitions (defs : List (String × Json)) (components : Components) :
    Components :=
  defs.foldl (fun (c : Components) (p : String × Json) => insertIfAbsent c p.1 p.2)
    components

/-- `SchemaGenerator.tryGenerateSchemaByName`: attempt nominal
generation for a type with a declared (interface/class/alias/enum)
symbol whose name is neither empty nor compiler-generated (`__`
prefix); a library throw is caught and yields `null`; emitted
`definitions` entries are copied into the component table unless
already present and the `definitions` key is deleted; a top-level
`$schema` tag is stripped when other fields remain. -/
def tryGenerateSchemaByName (oracle : SchemaOracle) (type' : Ty)
    (components : Components) : Option Json × Components :=
  match type'.getSymbol with
  | none => (none, components)
  | some symbol =>
    let name := symbol.name
    if name = "" || startsWithDunder name then (none, components)
    else if !(symbol.decls.any DeclKind.isNamedDecl) then (none, components)
    else
      match oracle.createSchema name with
      | Except.error _ => (none, components)
      | Except.ok schema0 =>
        if !(jsTruthy schema0) then (none, components)
        else
          (some (nominalResultSchema schema0),
           insertDefinitions (nominalDefinitions schema0) components)

/-- `type.getLiteralValue()` for the literal kinds used in enum
collapsing. -/
def Ty.getLiteralValue : Ty → Json
  | Ty.strLit s => Json.str s
  | Ty.numLit n => Json.num n
  | Ty.boolLit b => Json.bool b
  | _ => Json.null

/-- `typeText.match(/^\d+n$/)`. -/
def isBigIntLiteralText (s : String) : Bool :=
  s.data.length ≥ 2 && s.data.getLast? == some 'n' && (s.data.dropLast).all Char.isDigit

/-- `Number(typeText.slice(0, -1))` for an all-digit prefix. -/
def digitsToNat (cs : List Char) : Nat :=
  cs.foldl (fun acc c => acc * 10 + (c.toNat - '0'.toNat)) 0

/-- `typeof x === "object"` (arrays and `null` included, as in JS). -/
def jsTypeofObject : Json → Bool
  | Json.obj _ => true
  | Json.arr _ => true
  | Json.null => true
  | _ => false

/-- `{...schema, nullable: true}` on an object schema (spread
update keeps an existing key's position); other JSON kinds are
returned unchanged (the synthesizer only produces object schemas). -/
def setNullable : Json → Json
  | Json.obj fields => Json.obj (mapSet fields "nullable" (Json.bool true))
  | j => j

/-- The textual special cases of `getSchema` (`type.getText()`
matches for `bigint`, `symbol` and bigint literals). -/
def specialTextSchema (text : String) : Json :=
  if text = "bigint" then
    Json.obj [("type", Json.str "integer"), ("format", Json.str "int64")]
  else if text = "symbol" then
    Json.obj [("type", Json.str "string"),
      ("description", Json.str "Symbol (serialized as string)")]
  else if isBigIntLiteralText text then
    Json.obj [("type", Json.str "integer"), ("format", Json.str "int64"),
      ("enum", Json.arr [Json.num (Int.ofNat (digitsToNat text.data.dropLast))])]
  else Json.obj []

/-!
The schema synthesizer `SchemaGenerator.getSchema` / `getSchemaFor` /
`buildSimpleObjectSchema`.  The source dispatches through an ordered
chain of mutually exclusive `type.isX()` tests; since every test
recognizes exactly one constructor of `Ty`, the chain is rendered as a
constructor match whose arms keep the source's order and results (the
`isObject` tail of the chain, the symbol-name dispatch, is split into
`getObjectSchema`).  The returned fragment of
`tryGenerateSchemaByName` does not depend on the component-table
state, so the synthesizer's output is computed with an empty table.
-/
mutual

def getSchema (oracle : SchemaOracle) (t : Ty) : Json :=
  match (tryGenerateSchemaByName oracle t []).1 with
  | some librarySchema =>
    if jsTruthy librarySchema then librarySchema else getSchemaStructural oracle t
  | none => getSchemaStructural oracle t
termination_by 4 * tySize t + 3
decreasing_by
  all_goals omega

def getSchemaStructural (oracle : SchemaOracle) (t : Ty) : Json :=
  match t with
  | Ty.neverT => Json.obj [("not", Json.obj [])]
  | Ty.anyT => Json.obj [("description", Json.str "Any value")]
  | Ty.unknownT => Json.obj [("description", Json.str "Unknown value")]
  | Ty.voidT => Json.obj [("type", Json.str "null")]
  | Ty.nullT => Json.obj [("type", Json.str "null")]
  | Ty.undefT => Json.obj []
  | Ty.boolT => Json.obj [("type", Json.str "boolean")]
  | Ty.numT => Json.obj [("type", Json.str "number")]
  | Ty.strT => Json.obj [("type", Json.str "string")]
  | Ty.strLit s =>
    Json.obj [("type", Json.str "string"), ("enum", Json.arr [Json.str s])]
  | Ty.numLit n =>
    Json.obj [("type", Json.str "number"), ("enum", Json.arr [Json.num n])]
  | Ty.boolLit b =>
    Json.obj [("type", Json.str "boolean"), ("enum", Json.arr [Json.bool b])]
  | Ty.special text => specialTextSchema text
  | Ty.tuple elems =>
    match elems with
    | [] => Json.obj [("type", Json.str "array"), ("items", Json.obj [])]
    | e :: rest =>
      Json.obj [("type", Json.str "array"),
        ("prefixItems",
          Json.arr ((e :: rest).attach.map (fun x => getSchema oracle x.1))),
        ("minItems", Json.num (Int.ofNat (e :: rest).length))]
  | Ty.arrOf (some element) =>
    Json.obj [("type", Json.str "array"), ("items", getSchema oracle element)]
  | Ty.arrOf none =>
    Json.obj [("type", Json.str "array"), ("items", Json.obj [])]
  | Ty.inter parts =>
    Json.obj [("allOf", Json.arr (parts.attach.map (fun x => getSchema oracle x.1)))]
  | Ty.union parts => getUnionSchema oracle parts
  | Ty.obj sym args props idx => getObjectSchema oracle sym args props idx
termination_by 4 * tySize t + 2
decreasing_by
  all_goals simp only [tySize, tyListSize, tyOptSize]
  all_goals try omega
  all_goals (have h := tyListSize_mem_le x.2; simp only [tyListSize] at h; omega)

def getUnionSchema (oracle : SchemaOracle) (parts : List Ty) : Json :=
  if parts.all Ty.isStringLiteral then
    Json.obj [("type", Json.str "string"),
      ("enum", Json.arr (parts.map Ty.getLiteralValue))]
  else if parts.all Ty.isNumberLiteral then
    Json.obj [("type", Json.str "number"),
      ("enum", Json.arr (parts.map Ty.getLiteralValue))]
  else if parts.all Ty.isBooleanLiteral then
    Json.obj [("type", Json.str "boolean")]
  else
    let filtered := parts.filter (fun p => !p.isUndefined)
    let schema := getSchemaFor oracle filtered
    if jsTruthy schema && jsTypeofObject schema && filtered.length ≠ parts.length then
      setNullable schema
    else schema
termination_by 4 * tyListSize parts + 1
decreasing_by
  have h := tyListSize_filter_le (fun p => !p.isUndefined) parts
  omega

def firstArgSchema (oracle : SchemaOracle) (args : List Ty) : Json :=
  match args with
  | a :: _ => getSchema oracle a
  | [] => Json.obj []
termination_by 4 * tyListSize args + 2
decreasing_by
  simp only [tyListSize]
  omega

def secondArgSchema (oracle : SchemaOracle) (args : List Ty) : Json :=
  match args with
  | _ :: v :: _ => getSchema oracle v
  | _ => Json.obj []
termination_by 4 * tyListSize args + 2
decreasing_by
  simp only [tyListSize]
  omega

def getObjectSchema (oracle : SchemaOracle) (sym : Option TsSymbol) (args : List Ty)
    (props : List (String × Bool × Ty)) (idx : Option Ty) : Json :=
  match sym with
  | some symbol =>
    if symbol.name = "Promise" then firstArgSchema oracle args
    else if symbol.name = "Date" then
      Json.obj [("type", Json.str "string"), ("format", Json.str "date-time")]
    else if symbol.name = "RegExp" then
      Json.obj [("type", Json.str "string"), ("format", Json.str "regex")]
    else if symbol.name = "Map" then
      Json.obj [("type", Json.str "object"), ("additionalProperties", Json.obj [])]
    else if symbol.name = "Set" then
      Json.obj [("type", Json.str "array"), ("items", Json.obj []),
        ("uniqueItems", Json.bool true)]
    else if symbol.name = "Partial" ∨ symbol.name = "Required" ∨
        symbol.name = "Readonly" ∨ symbol.name = "Pick" ∨ symbol.name = "Omit" then
      firstArgSchema oracle args
    else if symbol.name = "Record" then
      Json.obj [("type", Json.str "object"),
        ("additionalProperties", secondArgSchema oracle args)]
    else if symbol.name = "Array" ∨ symbol.name = "ReadonlyArray" then
      Json.obj [("type", Json.str "array"), ("items", firstArgSchema oracle args)]
    else buildSimpleObjectSchema oracle (Ty.obj sym args props idx)
  | none => buildSimpleObjectSchema oracle (Ty.obj sym args props idx)
termination_by 4 * tySize (Ty.obj sym args props idx) + 1
decreasing_by
  all_goals simp only [tySize, tyListSize, tyOptSize]
  all_goals omega

def getSchemaFor (oracle : SchemaOracle) (typeList : List Ty) : Json :=
  match typeList with
  | [] => Json.obj []
  | [first] => getSchema oracle first
  | first :: rest =>
    Json.obj [("oneOf",
      Json.arr (getSchema oracle first ::
        rest.attach.map (fun x => getSchema oracle x.1)))]
termination_by 4 * tyListSize typeList
decreasing_by
  all_goals simp only [tyListSize]
  all_goals try omega
  all_goals (have h := tyListSize_mem_le x.2; omega)

def buildSimpleObjectSchema (oracle : SchemaOracle) (t : Ty) : Json :=
  let rows := (t.getProperties).attach.map (fun x =>
    let name := cleanSymbolName x.1.1
    let split := splitUndefined x.1.2.2
    (name, getSchemaFor oracle split.types, (!split.optional && !x.1.2.1)))
  let propSchemas := rows.foldl
    (fun (acc : List (String × Json)) r =>
      if r.1 = "" then acc else mapSet acc r.1 r.2.1) []
  let required := rows.foldl
    (fun (acc : List String) r =>
      if r.1 = "" then acc else (if r.2.2 then acc ++ [r.1] else acc)) []
  let schema := [("type", Json.str "object")]
  let schema :=
    if propSchemas.length > 0 then schema ++ [("properties", Json.obj propSchemas)]
    else schema
  let schema :=
    if required.length > 0 then
      schema ++ [("required", Json.arr (required.map Json.str))]
    else schema
  let schema :=
    match hidx : t.getStringIndexType with
    | some indexType => schema ++ [("additionalProperties", getSchema oracle indexType)]
    | none => schema
  Json.obj schema
termination_by 4 * tySize t
decreasing_by
  · have hx := x.2
    cases t with
    | obj sym args props idx =>
      simp only [Ty.getProperties] at hx
      have h1 := tyPropsSize_mem_le hx
      have h2 := tyListSize_splitUndefined_le x.1.2.2
      simp only [tySize]
      omega
    | neverT => simp [Ty.getProperties] at hx
    | anyT => simp [Ty.getProperties] at hx
    | unknownT => simp [Ty.getProperties] at hx
    | voidT => simp [Ty.getProperties] at hx
    | nullT => simp [Ty.getProperties] at hx
    | undefT => simp [Ty.getProperties] at hx
    | boolT => simp [Ty.getProperties] at hx
    | numT => simp [Ty.getProperties] at hx
    | strT => simp [Ty.getProperties] at hx
    | strLit s => simp [Ty.getProperties] at hx
    | numLit n => simp [Ty.getProperties] at hx
    | boolLit b => simp [Ty.getProperties] at hx
    | special w => simp [Ty.getProperties] at hx
    | tuple elems => simp [Ty.getProperties] at hx
    | arrOf e => simp [Ty.getProperties] at hx
    | inter parts => simp [Ty.getProperties] at hx
    | union parts => simp [Ty.getProperties] at hx
  · cases t with
    | obj sym args props idx =>
      simp only [Ty.getStringIndexType] at hidx
      subst hidx
      simp only [tySize, tyOptSize]
      omega
    | neverT => simp [Ty.getStringIndexType] at hidx
    | anyT => simp [Ty.getStringIndexType] at hidx
    | unknownT => simp [Ty.getStringIndexType] at hidx
    | voidT => simp [Ty.getStringIndexType] at hidx
    | nullT => simp [Ty.getStringIndexType] at hidx
    | boolT => simp [Ty.getStringIndexType] at hidx
    | numT => simp [Ty.getStringIndexType] at hidx
    | strT => simp [Ty.getStringIndexType] at hidx
    | undefT => simp [Ty.getStringIndexType] at hidx
    | strLit s => simp [Ty.getStringIndexType] at hidx
    | numLit n => simp [Ty.getStringIndexType] at hidx
    | boolLit b => simp [Ty.getStringIndexType] at hidx
    | special w => simp [Ty.getStringIndexType] at hidx
    | tuple elems => simp [Ty.getStringIndexType] at hidx
    | arrOf e => simp [Ty.getStringIndexType] at hidx
    | inter parts => simp [Ty.getStringIndexType] at hidx
    | union parts => simp [Ty.getStringIndexType] at hidx

end

/-- An oracle on which every nominal generation attempt throws. -/
def noNominalOracle : SchemaOracle := ⟨fun _ => Except.error ()⟩

/-- The fields of an object-valued JSON value (empty otherwise). -/
def jsonObjFields : Option Json → List (String × Json)
  | some (Json.obj fields) => fields
  | _ => []

/-- The elements of an array-valued JSON value (empty otherwise). -/
def jsonArrElems : Option Json → List Json
  | some (Json.arr elems) => elems
  | _ => []

def wProps : List (String × Bool × Ty) :=
  [("id", false, Ty.strT), ("nick", false, Ty.union [Ty.strT, Ty.undefT])]

/-! ## Theorems -/

theorem hasDoubleSlash_cons_ne (c : Char) (ys : List Char) (hc : c ≠ '/') :
    hasDoubleSlash (c :: ys) = hasDoubleSlash ys := by
  cases ys with
  | nil => rfl
  | cons y t => simp [hasDoubleSlash, hc]

theorem hasDoubleSlash_cons_slash (ys : List Char)
    (h : ∀ y t, ys = y :: t → y ≠ '/') :
    hasDoubleSlash ('/' :: ys) = hasDoubleSlash ys := by
  cases ys with
  | nil => rfl
  | cons y t => simp [hasDoubleSlash, h y t rfl]

theorem collapseSlashesAux_true_head (l : List Char) (y : Char) (t : List Char)
    (h : collapseSlashesAux true l = y :: t) : y ≠ '/' := by
  induction l generalizing y t with
  | nil => simp [collapseSlashesAux] at h
  | cons c rest ih =>
    by_cases hc : c = '/'
    · rw [collapseSlashesAux, if_pos hc, if_pos rfl] at h
      exact ih y t h
    · rw [collapseSlashesAux, if_neg hc] at h
      rw [List.cons.injEq] at h
      rw [← h.1]
      exact hc

theorem collapseSlashesAux_noDoubleSlash (l : List Char) (b : Bool) :
    hasDoubleSlash (collapseSlashesAux b l) = false := by
  induction l generalizing b with
  | nil => rfl
  | cons c rest ih =>
    by_cases hc : c = '/'
    · subst hc
      rw [collapseSlashesAux, if_pos rfl]
      cases b with
      | true => simpa using ih true
      | false =>
        rw [if_neg Bool.false_ne_true]
        rw [hasDoubleSlash_cons_slash _ (fun y t h => collapseSlashesAux_true_head rest y t h)]
        exact ih true
    · rw [collapseSlashesAux, if_neg hc]
      rw [hasDoubleSlash_cons_ne c _ hc]
      exact ih false

theorem collapseSlashes_noDoubleSlash (l : List Char) :
    hasDoubleSlash (collapseSlashes l) = false :=
  collapseSlashesAux_noDoubleSlash l false

/-- C6: `joinPaths` normalizes every slash combination: the four
documented examples, the empty combination giving `/`, and in general
the result never contains a doubled slash. -/
theorem joinPaths_normalizes :
    joinPaths "/" "/ping" = "/ping" ∧
    joinPaths "/utils" "/" = "/utils" ∧
    joinPaths "" "/x" = "/x" ∧
    joinPaths "/a/" "/b" = "/a/b" ∧
    joinPaths "" "" = "/" ∧
    ∀ base segment : String,
      hasDoubleSlash (joinPaths base segment).data = false := by
  refine ⟨by decide, by decide, by decide, by decide, by decide, ?_⟩
  intro base segment
  have key : ∀ X : List Char,
      hasDoubleSlash ((if collapseSlashes X = [] then "/"
        else String.mk (collapseSlashes X)).data) = false := by
    intro X
    by_cases h : collapseSlashes X = []
    · rw [if_pos h]; decide
    · rw [if_neg h]; exact collapseSlashes_noDoubleSlash X
  unfold joinPaths
  exact key _

/-! ## Type model

A shallow embedding of the ts-morph `Type` values the generator
inspects.  Constructors correspond to the disjoint type kinds the
source discriminates on; accessors mirror the ts-morph query methods.
-/

/-- C1: with both error responses configured and a request type with
the four positional arguments, the walker appends a clone of the
internal-error response unconditionally, and a clone of the
validation-error response exactly when one of the four arguments is
non-trivial. -/
theorem errorInjection_gating
    (declared : List ResponseRepresentation)
    (internalR validationR : ResponseRepresentation)
    (sym : Option TsSymbol) (props : List (String × Bool × Ty)) (idx : Option Ty)
    (h p q b : Ty) :
    buildHandlerResponses declared (some internalR) (some validationR)
        (some (Ty.obj sym [h, p, q, b] props idx)) =
      declared ++ [cloneResponse internalR] ++
        (if isTrivialRequestComponentCore h && isTrivialRequestComponentCore p &&
            isTrivialRequestComponentCore q && isTrivialRequestComponentCore b then
          ([] : List ResponseRepresentation)
         else [cloneResponse validationR]) := by
  unfold buildHandlerResponses hasRequestValidation
  simp only [Ty.getTypeArguments, List.length_cons, List.length_nil, List.any_cons,
    List.any_nil, isTrivialRequestComponent]
  by_cases hh : isTrivialRequestComponentCore h <;>
    by_cases hp : isTrivialRequestComponentCore p <;>
      by_cases hq : isTrivialRequestComponentCore q <;>
        by_cases hb : isTrivialRequestComponentCore b <;>
          simp [hh, hp, hq, hb]

/-- C10: the injected internal-error response is the `"500"` entry
retitled `"Internal Server Error"` when one exists; otherwise the
first extracted response, cloned with its original description;
nothing is injected only when extraction yielded no responses. -/
theorem internalError_selection (rs : List ResponseRepresentation) :
    (rs = [] → selectInternalErrorResponse rs = none) ∧
    ((∀ r ∈ rs, r.status ≠ "500") → ∀ r0 rest, rs = r0 :: rest →
      selectInternalErrorResponse rs = some (cloneResponse r0)) ∧
    (∀ m, rs.find? (fun r => r.status == "500") = some m →
      selectInternalErrorResponse rs =
        some { cloneResponse m with description := "Internal Server Error" }) := by
  refine ⟨?_, ?_, ?_⟩
  · intro he
    subst he
    rfl
  · intro hnone r0 rest he
    have hfind : rs.find? (fun r => r.status == "500") = none := by
      rw [List.find?_eq_none]
      intro r hr
      simpa using hnone r hr
    unfold selectInternalErrorResponse findResponseByStatus
    rw [hfind]
    subst he
    rfl
  · intro m hm
    unfold selectInternalErrorResponse findResponseByStatus
    rw [hm]
    simp

theorem internalError_selection_witness :
    selectInternalErrorResponse
        [{ status := "503", description := "Service Unavailable" }] =
      some (cloneResponse { status := "503", description := "Service Unavailable" }) := by
  refine (internalError_selection _).2.1 ?_ _ _ rfl
  intro r hr
  simp only [List.mem_singleton] at hr
  subst hr
  decide

/-! ## Path parameter back-fill (route-traversal.ts) -/

theorem filter_map_backfilled (l : List String) (n : String) :
    ((l.map backfilledPathParam).filter (fun p => p.name == n)) =
      (l.filter (fun m => m == n)).map backfilledPathParam := by
  induction l with
  | nil => rfl
  | cons a t ih =>
    by_cases ha : a == n
    · simp only [List.map_cons, List.filter_cons]
      rw [ih]
      simp [backfilledPathParam, ha]
    · simp only [List.map_cons, List.filter_cons]
      rw [ih]
      simp [backfilledPathParam, ha]

theorem filter_notMem_eq_nil (t : List String) (c : String → Bool) (n : String)
    (hn : n ∉ t) : (t.filter c).filter (fun m => m == n) = [] := by
  rw [List.filter_eq_nil_iff]
  intro a ha
  have hat : a ∈ t := List.mem_of_mem_filter ha
  simp only [beq_iff_eq]
  intro hEq
  exact hn (hEq ▸ hat)

theorem filter_filter_single (l : List String) (c : String → Bool) (n : String)
    (hd : l.Nodup) (hn : n ∈ l) :
    (l.filter c).filter (fun m => m == n) = if c n then [n] else [] := by
  induction l with
  | nil => simp at hn
  | cons a t ih =>
    rw [List.nodup_cons] at hd
    rcases List.mem_cons.mp hn with hna | hnt
    · subst hna
      rw [List.filter_cons]
      by_cases hc : c n
      · rw [if_pos hc, List.filter_cons]
        simp only [beq_self_eq_true, if_pos]
        rw [filter_notMem_eq_nil t c n hd.1]
        simp [hc]
      · rw [if_neg (by simpa using hc)]
        rw [filter_notMem_eq_nil t c n hd.1]
        simp [hc]
    · have han : a ≠ n := by
        intro hEq
        exact hd.1 (hEq ▸ hnt)
      rw [List.filter_cons]
      by_cases hc : c a
      · rw [if_pos (by simpa using hc), List.filter_cons]
        simp only [beq_iff_eq, han, if_neg]
        exact ih hd.2 hnt
      · rw [if_neg (by simpa using hc)]
        exact ih hd.2 hnt

/-- C3 counterexample: on the path `/x/:id/:id` with no declared
parameters, the back-fill appends the same placeholder twice — the
declared-name set is computed once before the loop and never updated,
so the final parameter list has a duplicate entry for `id`. -/
theorem addPathParameters_duplicate_counterexample :
    addPathParameters "/x/:id/:id" [] =
      [backfilledPathParam "id", backfilledPathParam "id"] ∧
    ((addPathParameters "/x/:id/:id" []).filter (fun p => p.name == "id")).length = 2 := by
  exact ⟨rfl, rfl⟩

/-- C3 (amended): when the placeholder names in the rendered path are
pairwise distinct, every placeholder is covered exactly once: a
placeholder matching a declared path parameter contributes no extra
entry, and every uncovered placeholder is appended exactly once as a
required parameter with a plain string schema. -/
theorem addPathParameters_covers (pathValue : String)
    (params : List ParameterRepresentation)
    (hnodup : (pathPlaceholders pathValue).Nodup) :
    ∃ extra, addPathParameters pathValue params = params ++ extra ∧
      ∀ n ∈ pathPlaceholders pathValue,
        extra.filter (fun p => p.name == n) =
          (if ((params.filter (fun p => p.location == ParamLocation.path)).map
                (fun p => p.name)).contains n
           then ([] : List ParameterRepresentation)
           else [backfilledPathParam n]) := by
  refine ⟨((pathPlaceholders pathValue).filter
    (fun name => !(((params.filter (fun p => p.location == ParamLocation.path)).map
      (fun p => p.name)).contains name))).map backfilledPathParam, by rfl, ?_⟩
  intro n hn
  rw [filter_map_backfilled]
  rw [filter_filter_single _ _ n hnodup hn]
  by_cases hc : ((params.filter (fun p => p.location == ParamLocation.path)).map
      (fun p => p.name)).contains n = true
  · rw [if_neg (by simp only [hc]; decide), if_pos hc]
    rfl
  · have hc' : ((params.filter (fun p => p.location == ParamLocation.path)).map
        (fun p => p.name)).contains n = false := by
      rw [Bool.eq_false_iff]
      exact hc
    rw [if_pos (by simp only [hc']; decide), if_neg hc]
    rfl

theorem addPathParameters_covers_witness :
    ∃ extra, addPathParameters "/users/:id/:action"
        [backfilledPathParam "id"] = [backfilledPathParam "id"] ++ extra ∧
      ∀ n ∈ pathPlaceholders "/users/:id/:action",
        extra.filter (fun p => p.name == n) =
          (if (([backfilledPathParam "id"].filter
                (fun p => p.location == ParamLocation.path)).map
                (fun p => p.name)).contains n
           then ([] : List ParameterRepresentation)
           else [backfilledPathParam n]) :=
  addPathParameters_covers "/users/:id/:action" [backfilledPathParam "id"] (by decide)

/-! ## Response merging (OpenApiBuilder.buildResponses) -/

theorem optionOr_none {α : Type} (a : Option α) : optionOr a none = a := by
  cases a <;> rfl

theorem lookupKey_nil {α : Type} (k : String) : lookupKey ([] : List (String × α)) k = none := rfl

theorem lookupKey_append {α : Type} (x y : List (String × α)) (k : String) :
    lookupKey (x ++ y) k = optionOr (lookupKey x k) (lookupKey y k) := by
  induction x with
  | nil => simp [lookupKey, optionOr]
  | cons p t ih =>
    by_cases hp : p.1 == k
    · simp [lookupKey, List.find?, hp, optionOr]
    · simp only [List.cons_append, lookupKey, List.find?, hp] at ih ⊢
      exact ih

theorem lookupKey_map_patch {α : Type} (a b : List (String × α)) (k : String) :
    lookupKey (a.map (fun p =>
        match b.find? (fun q => q.1 == p.1) with
        | some q => (p.1, q.2)
        | none => p)) k =
      match lookupKey a k with
      | none => none
      | some v =>
        some (match lookupKey b k with
              | some w => w
              | none => v) := by
  induction a with
  | nil => rfl
  | cons p t ih =>
    by_cases hp : p.1 == k
    · have hpk : p.1 = k := by simpa using hp
      subst hpk
      cases hb : b.find? (fun q => q.1 == p.1) with
      | none =>
        simp [lookupKey, List.find?, hb]
      | some q =>
        simp [lookupKey, List.find?, hb]
    · cases hb : b.find? (fun q => q.1 == p.1) with
      | none =>
        simp only [List.map_cons, lookupKey, List.find?, hb, hp] at ih ⊢
        exact ih
      | some q =>
        simp only [List.map_cons, lookupKey, List.find?, hb, hp] at ih ⊢
        exact ih

theorem lookupKey_filter_dropTaken {α : Type} (a b : List (String × α)) (k : String) :
    lookupKey (b.filter (fun q => !(a.any (fun p => p.1 == q.1)))) k =
      (if a.any (fun p => p.1 == k) then none else lookupKey b k) := by
  induction b with
  | nil => simp [lookupKey]
  | cons q t ih =>
    by_cases hq : q.1 == k
    · have hqk : q.1 = k := by simpa using hq
      subst hqk
      by_cases ha : a.any (fun p => p.1 == q.1)
      · simp only [List.filter_cons, ha, Bool.not_true, if_neg, Bool.false_eq_true,
          not_false_eq_true, if_pos]
        rw [ih]
        simp [ha]
      · have ha' : a.any (fun p => p.1 == q.1) = false := by
          rw [Bool.eq_false_iff]; exact ha
        simp only [List.filter_cons, ha', Bool.not_false, if_pos]
        simp [lookupKey, List.find?, ha']
    · by_cases ha : a.any (fun p => p.1 == q.1)
      · simp only [List.filter_cons, ha, Bool.not_true, Bool.false_eq_true,
          not_false_eq_true, if_neg]
        simp only [lookupKey, List.find?, hq] at ih ⊢
        exact ih
      · have ha' : a.any (fun p => p.1 == q.1) = false := by
          rw [Bool.eq_false_iff]; exact ha
        simp only [List.filter_cons, ha', Bool.not_false, if_pos]
        simp only [lookupKey, List.find?, hq] at ih ⊢
        exact ih

theorem any_eq_isSome_lookupKey {α : Type} (a : List (String × α)) (k : String) :
    a.any (fun p => p.1 == k) = (lookupKey a k).isSome := by
  induction a with
  | nil => rfl
  | cons p t ih =>
    by_cases hp : p.1 == k
    · simp [lookupKey, List.find?, hp]
    · simp only [List.any_cons, hp, Bool.false_or, lookupKey, List.find?] at ih ⊢
      exact ih

/-- Shallow merge looks up the incoming record first, falling back to
the existing one: the later write wins per key. -/
theorem lookupKey_recordMerge {α : Type} (a b : List (String × α)) (k : String) :
    lookupKey (recordMerge a b) k = optionOr (lookupKey b k) (lookupKey a k) := by
  unfold recordMerge
  rw [lookupKey_append, lookupKey_map_patch, lookupKey_filter_dropTaken,
    any_eq_isSome_lookupKey]
  cases hak : lookupKey a k with
  | none =>
    cases hbk : lookupKey b k <;> simp [optionOr]
  | some va =>
    cases hbk : lookupKey b k <;> simp [optionOr]

theorem recordMerge_eq_nil {α : Type} (a b : List (String × α)) :
    recordMerge a b = [] ↔ a = [] ∧ b = [] := by
  constructor
  · intro h
    cases a with
    | nil =>
      refine ⟨rfl, ?_⟩
      simpa [recordMerge] using h
    | cons p t =>
      exfalso
      simp [recordMerge] at h
  · rintro ⟨ha, hb⟩
    subst ha; subst hb
    rfl

/-- C2: when two accumulated responses carry the same status, the
builder merges them into one entry whose headers are the shallow merge
with the later response winning per key, whose schema is a `oneOf` of
both schemas when both exist else whichever exists else absent, and
whose description is the existing one when non-generic (different from
`"HTTP <status>"`) else the incoming one.  Accumulated responses have
non-empty descriptions and object-valued (hence truthy) schemas, which
the hypotheses record. -/
theorem responseMerge_sameStatus (r1 r2 : ResponseRepresentation)
    (hstatus : r2.status = r1.status)
    (hdesc1 : r1.description ≠ "")
    (hs1 : ∀ s, r1.schema = some s → jsTruthy s = true)
    (hs2 : ∀ s, r2.schema = some s → jsTruthy s = true) :
    ∃ m, List.foldl mergeResponseInto [] [r1, r2] = [(r1.status, m)] ∧
      m.status = r1.status ∧
      m.description =
        (if r1.description = "HTTP " ++ r1.status then r2.description
         else r1.description) ∧
      m.schema =
        (match r1.schema, r2.schema with
         | some a, some b => some (Json.obj [("oneOf", Json.arr [a, b])])
         | some a, none => some a
         | none, some b => some b
         | none, none => none) ∧
      (∀ k, lookupKey (m.headers.getD []) k =
        optionOr (lookupKey (r2.headers.getD []) k)
          (lookupKey (r1.headers.getD []) k)) ∧
      (m.headers = none ↔ r1.headers.getD [] = [] ∧ r2.headers.getD [] = []) := by
  have hstep : List.foldl mergeResponseInto [] [r1, r2] =
      mergeResponseInto (mergeResponseInto [] r1) r2 := rfl
  have h1 : mergeResponseInto [] r1 = [(r1.status, r1)] := by
    simp [mergeResponseInto, lookupKey, mapSet]
  have hbeq : (r1.status == r2.status) = true := by simp [hstatus]
  have hlook : lookupKey [(r1.status, r1)] r2.status = some r1 := by
    simp [lookupKey, List.find?, hbeq]
  have h2 : mergeResponseInto [(r1.status, r1)] r2 =
      [(r1.status, mergeTwoResponses r1 r2)] := by
    unfold mergeResponseInto
    rw [hlook]
    simp [mapSet, hbeq, hstatus]
  refine ⟨mergeTwoResponses r1 r2, by rw [hstep, h1, h2], ?_⟩
  -- Facets of the merged response.
  have hdescFacet : (mergeTwoResponses r1 r2).description =
      (if r1.description = "HTTP " ++ r1.status then r2.description
       else r1.description) ∧
      (mergeTwoResponses r1 r2).status = r1.status ∧
      (mergeTwoResponses r1 r2).schema =
        (match r1.schema, r2.schema with
         | some a, some b => some (Json.obj [("oneOf", Json.arr [a, b])])
         | some a, none => some a
         | none, some b => some b
         | none, none => none) ∧
      (mergeTwoResponses r1 r2).headers =
        (match recordMerge (r1.headers.getD []) (r2.headers.getD []) with
         | [] => none
         | h :: t => some (h :: t)) := by
    unfold mergeTwoResponses
    have hdesc : (if r1.description ≠ "" ∧
          r1.description ≠ ("HTTP " ++ r2.status) then r1.description
        else r2.description) =
        (if r1.description = "HTTP " ++ r1.status then r2.description
         else r1.description) := by
      rw [hstatus]
      by_cases hg : r1.description = "HTTP " ++ r1.status
      · rw [if_pos hg, if_neg]
        simp [hg]
      · rw [if_neg hg, if_pos ⟨hdesc1, hg⟩]
    cases hsc1 : r1.schema with
    | none =>
      cases hsc2 : r2.schema with
      | none =>
        simp only [hsc1, hsc2, jsOptTruthy, Bool.false_and, Bool.and_false,
          if_neg Bool.false_ne_true, optionOr]
        cases hcomb : recordMerge (r1.headers.getD []) (r2.headers.getD []) with
        | nil => exact ⟨hdesc, hstatus, rfl, rfl⟩
        | cons h t => exact ⟨hdesc, hstatus, rfl, rfl⟩
      | some b =>
        have hb := hs2 b hsc2
        simp only [hsc1, hsc2, jsOptTruthy, Bool.false_and,
          if_neg Bool.false_ne_true, optionOr, hb, if_pos]
        cases hcomb : recordMerge (r1.headers.getD []) (r2.headers.getD []) with
        | nil => exact ⟨hdesc, hstatus, rfl, rfl⟩
        | cons h t => exact ⟨hdesc, hstatus, rfl, rfl⟩
    | some a =>
      have ha := hs1 a hsc1
      cases hsc2 : r2.schema with
      | none =>
        simp only [hsc1, hsc2, jsOptTruthy, Bool.and_false,
          if_neg Bool.false_ne_true, optionOr, ha, if_pos]
        cases hcomb : recordMerge (r1.headers.getD []) (r2.headers.getD []) with
        | nil => exact ⟨hdesc, hstatus, rfl, rfl⟩
        | cons h t => exact ⟨hdesc, hstatus, rfl, rfl⟩
      | some b =>
        have hb := hs2 b hsc2
        have hcond : (jsOptTruthy (some a) && jsOptTruthy (some b)) = true := by
          simp [jsOptTruthy, ha, hb]
        simp only [hsc1, hsc2, hcond, eq_self_iff_true, if_true, jsTruthy,
          Option.getD_some]
        cases hcomb : recordMerge (r1.headers.getD []) (r2.headers.getD []) with
        | nil => exact ⟨hdesc, hstatus, rfl, rfl⟩
        | cons h t => exact ⟨hdesc, hstatus, rfl, rfl⟩
  obtain ⟨hd, hst, hsc, hh⟩ := hdescFacet
  refine ⟨hst, hd, hsc, ?_, ?_⟩
  · intro k
    rw [hh]
    cases hcomb : recordMerge (r1.headers.getD []) (r2.headers.getD []) with
    | nil =>
      have := (recordMerge_eq_nil (r1.headers.getD []) (r2.headers.getD [])).mp hcomb
      simp [this.1, this.2, lookupKey, optionOr]
    | cons h t =>
      have := lookupKey_recordMerge (r1.headers.getD []) (r2.headers.getD []) k
      rw [hcomb] at this
      simpa using this
  · rw [hh]
    cases hcomb : recordMerge (r1.headers.getD []) (r2.headers.getD []) with
    | nil =>
      have := (recordMerge_eq_nil (r1.headers.getD []) (r2.headers.getD [])).mp hcomb
      simp [this.1, this.2]
    | cons h t =>
      constructor
      · intro hsome
        exact absurd hsome (by simp)
      · rintro ⟨ha, hb⟩
        rw [ha, hb] at hcomb
        simp [recordMerge] at hcomb

theorem responseMerge_sameStatus_witness :
    ∃ m, List.foldl mergeResponseInto [] [wMergeR1, wMergeR2] =
        [(wMergeR1.status, m)] ∧
      m.status = wMergeR1.status ∧
      m.description =
        (if wMergeR1.description = "HTTP " ++ wMergeR1.status then
          wMergeR2.description
         else wMergeR1.description) ∧
      m.schema =
        (match wMergeR1.schema, wMergeR2.schema with
         | some a, some b => some (Json.obj [("oneOf", Json.arr [a, b])])
         | some a, none => some a
         | none, some b => some b
         | none, none => none) ∧
      (∀ k, lookupKey (m.headers.getD []) k =
        optionOr (lookupKey (wMergeR2.headers.getD []) k)
          (lookupKey (wMergeR1.headers.getD []) k)) ∧
      (m.headers = none ↔
        wMergeR1.headers.getD [] = [] ∧ wMergeR2.headers.getD [] = []) :=
  responseMerge_sameStatus wMergeR1 wMergeR2 rfl (by decide)
    (by intro s h; cases h; rfl) (by intro s h; cases h; rfl)

/-! ## Schema generator (scripts/xprv-gen-openapi/schema-generator.ts) -/

/-- C5: a union whose members are all string literals collapses to a
single string-enum schema (likewise number literals to a number enum,
and boolean literals to a plain boolean schema), each sub-case checked
in the source's order before the generic union rule. -/
theorem unionLiteralCollapse (oracle : SchemaOracle) (parts : List Ty) :
    (parts.all Ty.isStringLiteral = true →
      getSchema oracle (Ty.union parts) =
        Json.obj [("type", Json.str "string"),
          ("enum", Json.arr (parts.map Ty.getLiteralValue))]) ∧
    (parts.all Ty.isStringLiteral = false →
      parts.all Ty.isNumberLiteral = true →
      getSchema oracle (Ty.union parts) =
        Json.obj [("type", Json.str "number"),
          ("enum", Json.arr (parts.map Ty.getLiteralValue))]) ∧
    (parts.all Ty.isStringLiteral = false →
      parts.all Ty.isNumberLiteral = false →
      parts.all Ty.isBooleanLiteral = true →
      getSchema oracle (Ty.union parts) = Json.obj [("type", Json.str "boolean")]) := by
  have hbase : getSchema oracle (Ty.union parts) =
      getSchemaStructural oracle (Ty.union parts) := by
    simp only [getSchema, tryGenerateSchemaByName, Ty.getSymbol]
  rw [hbase]
  have hunion : getSchemaStructural oracle (Ty.union parts) =
      getUnionSchema oracle parts := by
    simp only [getSchemaStructural]
  rw [hunion]
  refine ⟨?_, ?_, ?_⟩
  · intro hs
    simp only [getUnionSchema, hs]
    simp
  · intro hs hn
    simp only [getUnionSchema, hs, hn]
    simp
  · intro hs hn hb
    simp only [getUnionSchema, hs, hn, hb]
    simp

theorem unionLiteralCollapse_witness :
    getSchema noNominalOracle
        (Ty.union [Ty.strLit "a", Ty.strLit "b", Ty.strLit "c"]) =
      Json.obj [("type", Json.str "string"),
        ("enum", Json.arr [Json.str "a", Json.str "b", Json.str "c"])] := by
  have h := (unionLiteralCollapse noNominalOracle
    [Ty.strLit "a", Ty.strLit "b", Ty.strLit "c"]).1 (by decide)
  simpa [Ty.getLiteralValue] using h

/-- C8: classification is total and never aborts: a type whose nominal
generation throws is treated as not-nominal (the component table is
left untouched and the structural rules classify the same type), and a
type matching no structural rule yields the empty schema. -/
theorem classification_never_aborts (oracle : SchemaOracle) (t : Ty)
    (c : Components) (w : String)
    (hthrow : ∀ sym, t.getSymbol = some sym →
      oracle.createSchema sym.name = Except.error ())
    (hw1 : w ≠ "bigint") (hw2 : w ≠ "symbol") (hw3 : isBigIntLiteralText w = false) :
    tryGenerateSchemaByName oracle t c = (none, c) ∧
    getSchema oracle t = getSchemaStructural oracle t ∧
    getSchema oracle (Ty.special w) = Json.obj [] := by
  have hpart1 : ∀ c' : Components, tryGenerateSchemaByName oracle t c' = (none, c') := by
    intro c'
    cases hsym : t.getSymbol with
    | none => simp [tryGenerateSchemaByName, hsym]
    | some sym =>
      simp only [tryGenerateSchemaByName, hsym]
      split
      · rfl
      · split
        · rfl
        · rw [hthrow sym hsym]
  have h0 : (tryGenerateSchemaByName oracle t []).1 = none := by
    rw [hpart1 []]
  refine ⟨hpart1 c, ?_, ?_⟩
  · simp only [getSchema, h0]
  · have hspec : getSchema oracle (Ty.special w) =
        getSchemaStructural oracle (Ty.special w) := by
      simp only [getSchema, tryGenerateSchemaByName, Ty.getSymbol]
    rw [hspec]
    simp only [getSchemaStructural, specialTextSchema]
    rw [if_neg hw1, if_neg hw2]
    simp [hw3]

theorem classification_never_aborts_witness :
    tryGenerateSchemaByName noNominalOracle
        (Ty.obj (some ⟨"User", [DeclKind.interfaceDecl]⟩) [] [] none)
        [("Seen", Json.obj [])] =
      (none, [("Seen", Json.obj [])]) ∧
    getSchema noNominalOracle
        (Ty.obj (some ⟨"User", [DeclKind.interfaceDecl]⟩) [] [] none) =
      getSchemaStructural noNominalOracle
        (Ty.obj (some ⟨"User", [DeclKind.interfaceDecl]⟩) [] [] none) ∧
    getSchema noNominalOracle (Ty.special "WeakMap") = Json.obj [] :=
  classification_never_aborts noNominalOracle
    (Ty.obj (some ⟨"User", [DeclKind.interfaceDecl]⟩) [] [] none)
    [("Seen", Json.obj [])] "WeakMap"
    (fun _ _ => rfl) (by decide) (by decide) (by decide)

/-- C9 counterexample: `Map<string, number>` is key-value-map-like and
has a present value type argument (`number`, whose schema is
`\x7btype:"number"\x7d`), yet the synthesized schema carries
`additionalProperties: \x7b\x7d` — the `Map` branch ignores the value
type, unlike the `Record` branch.  (The `Map` symbol here carries no
interface declaration, so nominal generation does not apply.) -/
theorem mapValueType_counterexample :
    getSchema noNominalOracle
        (Ty.obj (some ⟨"Map", []⟩) [Ty.strT, Ty.numT] [] none) =
      Json.obj [("type", Json.str "object"), ("additionalProperties", Json.obj [])] ∧
    getSchema noNominalOracle Ty.numT = Json.obj [("type", Json.str "number")] ∧
    Json.obj ([] : List (String × Json)) ≠ Json.obj [("type", Json.str "number")] := by
  refine ⟨?_, ?_, by simp⟩
  · have h1 : getSchema noNominalOracle
        (Ty.obj (some ⟨"Map", []⟩) [Ty.strT, Ty.numT] [] none) =
        getSchemaStructural noNominalOracle
          (Ty.obj (some ⟨"Map", []⟩) [Ty.strT, Ty.numT] [] none) := by
      simp [getSchema, tryGenerateSchemaByName, Ty.getSymbol, noNominalOracle]
    rw [h1]
    simp only [getSchemaStructural, getObjectSchema]
    simp
  · have h1 : getSchema noNominalOracle Ty.numT =
        getSchemaStructural noNominalOracle Ty.numT := by
      simp [getSchema, tryGenerateSchemaByName, Ty.getSymbol]
    rw [h1]
    simp only [getSchemaStructural]

/-- C9 (amended): for a `Record`-named type the synthesized schema is
`\x7btype:"object"\x7d` with `additionalProperties` equal to the schema
of the second type argument when present and `\x7b\x7d` when absent;
for a `Map`-named type `additionalProperties` is always `\x7b\x7d`,
regardless of the value type argument. -/
theorem keyValueMap_schemas (oracle : SchemaOracle) (sym : TsSymbol)
    (args : List Ty) (props : List (String × Bool × Ty)) (idx : Option Ty)
    (hnom : (tryGenerateSchemaByName oracle (Ty.obj (some sym) args props idx) []).1
      = none) :
    (sym.name = "Record" →
      getSchema oracle (Ty.obj (some sym) args props idx) =
        Json.obj [("type", Json.str "object"),
          ("additionalProperties",
            match args with
            | _ :: v :: _ => getSchema oracle v
            | _ => Json.obj [])]) ∧
    (sym.name = "Map" →
      getSchema oracle (Ty.obj (some sym) args props idx) =
        Json.obj [("type", Json.str "object"),
          ("additionalProperties", Json.obj [])]) := by
  have h1 : getSchema oracle (Ty.obj (some sym) args props idx) =
      getObjectSchema oracle (some sym) args props idx := by
    simp only [getSchema, hnom, getSchemaStructural]
  constructor
  · intro hname
    rw [h1]
    simp only [getObjectSchema, hname]
    simp only [reduceIte]
    cases args with
    | nil => simp [secondArgSchema]
    | cons a rest =>
      cases rest with
      | nil => simp [secondArgSchema]
      | cons v r => simp [secondArgSchema]
  · intro hname
    rw [h1]
    simp only [getObjectSchema, hname]
    simp

theorem keyValueMap_schemas_witness :
    getSchema noNominalOracle
        (Ty.obj (some ⟨"Record", []⟩) [Ty.strT, Ty.boolT] [] none) =
      Json.obj [("type", Json.str "object"),
        ("additionalProperties", getSchema noNominalOracle Ty.boolT)] :=
  (keyValueMap_schemas noNominalOracle ⟨"Record", []⟩ [Ty.strT, Ty.boolT] [] none
    rfl).1 rfl

/-! ## Component-table idempotence (C7) -/

theorem insertIfAbsent_of_hasKey (c : Components) (k : String) (v : Json)
    (h : c.any (fun p => p.1 == k) = true) : insertIfAbsent c k v = c := by
  simp [insertIfAbsent, h]

theorem hasKey_insertIfAbsent_self (c : Components) (k : String) (v : Json) :
    (insertIfAbsent c k v).any (fun p => p.1 == k) = true := by
  unfold insertIfAbsent
  by_cases h : c.any (fun p => p.1 == k) = true
  · rw [if_pos h]; exact h
  · rw [if_neg h]
    simp

theorem hasKey_insertIfAbsent_mono (c : Components) (k k' : String) (v : Json)
    (h : c.any (fun p => p.1 == k') = true) :
    (insertIfAbsent c k v).any (fun p => p.1 == k') = true := by
  unfold insertIfAbsent
  by_cases hk : c.any (fun p => p.1 == k) = true
  · rw [if_pos hk]; exact h
  · rw [if_neg hk]
    simp only [List.any_append]
    rw [h]
    rfl

theorem mem_insertIfAbsent (c : Components) (k : String) (v : Json)
    (x : String × Json) (h : x ∈ c) : x ∈ insertIfAbsent c k v := by
  unfold insertIfAbsent
  by_cases hk : c.any (fun p => p.1 == k) = true
  · rw [if_pos hk]; exact h
  · rw [if_neg hk]
    exact List.mem_append_left _ h

theorem nodupKeys_insertIfAbsent (c : Components) (k : String) (v : Json)
    (h : (c.map Prod.fst).Nodup) :
    ((insertIfAbsent c k v).map Prod.fst).Nodup := by
  unfold insertIfAbsent
  by_cases hk : c.any (fun p => p.1 == k) = true
  · rw [if_pos hk]; exact h
  · rw [if_neg hk]
    rw [List.map_append]
    rw [List.nodup_append]
    refine ⟨h, by simp, ?_⟩
    intro a ha hb
    simp only [List.map_cons, List.map_nil, List.mem_singleton] at hb
    subst hb
    apply hk
    simp only [List.any_eq_true]
    rcases List.mem_map.mp ha with ⟨p, hp, hpa⟩
    exact ⟨p, hp, by simp [hpa]⟩

theorem insertDefinitions_hasKey_mono (defs : List (String × Json))
    (c : Components) (k' : String) (h : c.any (fun p => p.1 == k') = true) :
    (insertDefinitions defs c).any (fun p => p.1 == k') = true := by
  induction defs generalizing c with
  | nil => exact h
  | cons d rest ih =>
    simp only [insertDefinitions] at ih ⊢
    simp only [List.foldl_cons]
    exact ih _ (hasKey_insertIfAbsent_mono c d.1 k' d.2 h)

theorem insertDefinitions_all_keys (defs : List (String × Json)) (c : Components) :
    ∀ d ∈ defs, (insertDefinitions defs c).any (fun p => p.1 == d.1) = true := by
  induction defs generalizing c with
  | nil => intro d hd; simp at hd
  | cons e rest ih =>
    intro d hd
    rcases List.mem_cons.mp hd with rfl | hmem
    · simp only [insertDefinitions, List.foldl_cons]
      exact insertDefinitions_hasKey_mono rest _ d.1
        (hasKey_insertIfAbsent_self c d.1 d.2)
    · simp only [insertDefinitions, List.foldl_cons]
      exact ih _ d hmem

theorem insertDefinitions_mem (defs : List (String × Json)) (c : Components)
    (x : String × Json) (h : x ∈ c) : x ∈ insertDefinitions defs c := by
  induction defs generalizing c with
  | nil => exact h
  | cons d rest ih =>
    simp only [insertDefinitions] at ih ⊢
    simp only [List.foldl_cons]
    exact ih _ (mem_insertIfAbsent c d.1 d.2 x h)

theorem insertDefinitions_nodupKeys (defs : List (String × Json)) (c : Components)
    (h : (c.map Prod.fst).Nodup) :
    ((insertDefinitions defs c).map Prod.fst).Nodup := by
  induction defs generalizing c with
  | nil => exact h
  | cons d rest ih =>
    simp only [insertDefinitions] at ih ⊢
    simp only [List.foldl_cons]
    exact ih _ (nodupKeys_insertIfAbsent c d.1 d.2 h)

theorem insertDefinitions_id_of_all_present (defs : List (String × Json))
    (c : Components) (h : ∀ d ∈ defs, c.any (fun p => p.1 == d.1) = true) :
    insertDefinitions defs c = c := by
  induction defs generalizing c with
  | nil => rfl
  | cons d rest ih =>
    simp only [insertDefinitions, List.foldl_cons]
    rw [insertIfAbsent_of_hasKey c d.1 d.2 (h d (List.mem_cons_self d rest))]
    exact ih c (fun e he => h e (List.mem_cons_of_mem d he))

/-- Every run of the nominal generator returns a component-independent
fragment and inserts a fixed set of definitions (possibly empty) with
the insert-if-absent discipline. -/
theorem tryGenerateSchemaByName_shape (oracle : SchemaOracle) (t : Ty) :
    ∃ r defs, ∀ c, tryGenerateSchemaByName oracle t c = (r, insertDefinitions defs c) := by
  cases hsym : t.getSymbol with
  | none => exact ⟨none, [], fun c => by simp [tryGenerateSchemaByName, hsym, insertDefinitions]⟩
  | some sym =>
    by_cases h1 : ((sym.name = "" || startsWithDunder sym.name) : Bool) = true
    · refine ⟨none, [], fun c => ?_⟩
      simp only [tryGenerateSchemaByName, hsym]
      rw [if_pos h1]
      simp [insertDefinitions]
    · by_cases h2 : (!(sym.decls.any DeclKind.isNamedDecl)) = true
      · refine ⟨none, [], fun c => ?_⟩
        simp only [tryGenerateSchemaByName, hsym]
        rw [if_neg h1, if_pos h2]
        simp [insertDefinitions]
      · cases hcs : oracle.createSchema sym.name with
        | error e =>
          refine ⟨none, [], fun c => ?_⟩
          simp only [tryGenerateSchemaByName, hsym]
          rw [if_neg h1, if_neg h2, hcs]
          simp [insertDefinitions]
        | ok schema0 =>
          by_cases h3 : (!(jsTruthy schema0)) = true
          · refine ⟨none, [], fun c => ?_⟩
            simp only [tryGenerateSchemaByName, hsym]
            rw [if_neg h1, if_neg h2, hcs]
            simp only [if_pos h3]
            simp [insertDefinitions]
          · refine ⟨some (nominalResultSchema schema0), nominalDefinitions schema0,
              fun c => ?_⟩
            simp only [tryGenerateSchemaByName, hsym]
            rw [if_neg h1, if_neg h2, hcs]
            simp only [if_neg h3]

/-- C7: populating the component table is idempotent within one run:
classifying the same named type twice leaves the table of the first
classification unchanged (no overwrite, no duplicate key, existing
entries kept) and returns the same fragment. -/
theorem componentTable_idempotent (oracle : SchemaOracle) (t : Ty)
    (c0 : Components) (hnodup : (c0.map Prod.fst).Nodup) :
    ((tryGenerateSchemaByName oracle t
        (tryGenerateSchemaByName oracle t c0).2).1 =
      (tryGenerateSchemaByName oracle t c0).1) ∧
    ((tryGenerateSchemaByName oracle t
        (tryGenerateSchemaByName oracle t c0).2).2 =
      (tryGenerateSchemaByName oracle t c0).2) ∧
    (((tryGenerateSchemaByName oracle t c0).2.map Prod.fst).Nodup) ∧
    (∀ e ∈ c0, e ∈ (tryGenerateSchemaByName oracle t c0).2) := by
  obtain ⟨r, defs, hshape⟩ := tryGenerateSchemaByName_shape oracle t
  have hsecond : insertDefinitions defs (insertDefinitions defs c0) =
      insertDefinitions defs c0 :=
    insertDefinitions_id_of_all_present defs _
      (fun d hd => insertDefinitions_all_keys defs c0 d hd)
  rw [hshape c0, hshape (insertDefinitions defs c0)]
  refine ⟨rfl, ?_, ?_, ?_⟩
  · simpa using hsecond
  · exact insertDefinitions_nodupKeys defs c0 hnodup
  · intro e he
    exact insertDefinitions_mem defs c0 e he

theorem componentTable_idempotent_witness :
    ((tryGenerateSchemaByName noNominalOracle
        (Ty.obj (some ⟨"User", [DeclKind.interfaceDecl]⟩) [] [] none)
        (tryGenerateSchemaByName noNominalOracle
          (Ty.obj (some ⟨"User", [DeclKind.interfaceDecl]⟩) [] [] none)
          [("A", Json.obj [])]).2).1 =
      (tryGenerateSchemaByName noNominalOracle
        (Ty.obj (some ⟨"User", [DeclKind.interfaceDecl]⟩) [] [] none)
        [("A", Json.obj [])]).1) ∧
    ((tryGenerateSchemaByName noNominalOracle
        (Ty.obj (some ⟨"User", [DeclKind.interfaceDecl]⟩) [] [] none)
        (tryGenerateSchemaByName noNominalOracle
          (Ty.obj (some ⟨"User", [DeclKind.interfaceDecl]⟩) [] [] none)
          [("A", Json.obj [])]).2).2 =
      (tryGenerateSchemaByName noNominalOracle
        (Ty.obj (some ⟨"User", [DeclKind.interfaceDecl]⟩) [] [] none)
        [("A", Json.obj [])]).2) ∧
    (((tryGenerateSchemaByName noNominalOracle
        (Ty.obj (some ⟨"User", [DeclKind.interfaceDecl]⟩) [] [] none)
        [("A", Json.obj [])]).2.map Prod.fst).Nodup) ∧
    (∀ e ∈ [("A", Json.obj ([] : List (String × Json)))],
      e ∈ (tryGenerateSchemaByName noNominalOracle
        (Ty.obj (some ⟨"User", [DeclKind.interfaceDecl]⟩) [] [] none)
        [("A", Json.obj [])]).2) :=
  componentTable_idempotent noNominalOracle
    (Ty.obj (some ⟨"User", [DeclKind.interfaceDecl]⟩) [] [] none)
    [("A", Json.obj [])] (by simp)

/-! ## Object-schema optionality (C4) -/

theorem requiredFold_eq (rows : List (String × Json × Bool)) (acc : List String) :
    rows.foldl (fun (a : List String) r =>
      if r.1 = "" then a else (if r.2.2 then a ++ [r.1] else a)) acc =
    acc ++ (rows.filter (fun r => !(decide (r.1 = "")) && r.2.2)).map
      (fun r => r.1) := by
  induction rows generalizing acc with
  | nil => simp
  | cons r rest ih =>
    simp only [List.foldl_cons, List.filter_cons]
    by_cases h1 : r.1 = ""
    · rw [if_pos h1, ih]
      simp [h1]
    · rw [if_neg h1]
      by_cases h2 : r.2.2
      · rw [if_pos h2, ih]
        simp [h1, h2]
      · rw [if_neg h2, ih]
        simp [h1, h2]

theorem lookupKey_mapUpdate_self {α : Type} (m : List (String × α)) (k : String)
    (v : α) (hany : m.any (fun q => q.1 == k) = true) :
    lookupKey (m.map (fun q => if q.1 == k then (k, v) else q)) k = some v := by
  induction m with
  | nil => simp at hany
  | cons q t ih =>
    simp only [List.map_cons]
    by_cases hq : (q.1 == k) = true
    · simp only [if_pos hq]
      simp [lookupKey, List.find?]
    · simp only [if_neg hq]
      simp only [lookupKey, List.find?, hq] at ih ⊢
      simp only [List.any_cons, hq, Bool.false_or] at hany
      exact ih hany

theorem lookupKey_mapUpdate_other {α : Type} (m : List (String × α)) (k : String)
    (v : α) (k' : String) (h : k' ≠ k) :
    lookupKey (m.map (fun q => if q.1 == k then (k, v) else q)) k' = lookupKey m k' := by
  induction m with
  | nil => rfl
  | cons q t ih =>
    simp only [List.map_cons]
    have h1 : ¬((k == k') = true) := by
      simp only [beq_iff_eq]
      exact fun e => h e.symm
    by_cases hq : (q.1 == k) = true
    · have hqk : q.1 = k := by simpa using hq
      have h2 : ¬((q.1 == k') = true) := by rw [hqk]; exact h1
      simp only [if_pos hq, lookupKey, List.find?, h1, h2]
      exact ih
    · simp only [if_neg hq]
      by_cases hq' : (q.1 == k') = true
      · simp [lookupKey, List.find?, hq']
      · simp only [lookupKey, List.find?, hq'] at ih ⊢
        exact ih

theorem lookupKey_single_ne {α : Type} (k k' : String) (v : α) (h : k' ≠ k) :
    lookupKey [(k, v)] k' = none := by
  have h1 : ¬((k == k') = true) := by
    simp only [beq_iff_eq]
    exact fun e => h e.symm
  simp [lookupKey, List.find?, h1]

theorem lookupKey_mapSet_self {α : Type} (m : List (String × α)) (k : String) (v : α) :
    lookupKey (mapSet m k v) k = some v := by
  unfold mapSet
  by_cases hany : m.any (fun p => p.1 == k) = true
  · rw [if_pos hany]
    exact lookupKey_mapUpdate_self m k v hany
  · rw [if_neg hany]
    rw [lookupKey_append]
    have hfind : m.find? (fun p => p.1 == k) = none := by
      rw [List.find?_eq_none]
      intro p hp hbeq
      apply hany
      simp only [List.any_eq_true]
      exact ⟨p, hp, hbeq⟩
    have hm : lookupKey m k = none := by
      unfold lookupKey
      rw [hfind]
      rfl
    rw [hm]
    simp [optionOr, lookupKey, List.find?]

theorem lookupKey_mapSet_other {α : Type} (m : List (String × α)) (k : String)
    (v : α) (k' : String) (h : k' ≠ k) :
    lookupKey (mapSet m k v) k' = lookupKey m k' := by
  unfold mapSet
  by_cases hany : m.any (fun p => p.1 == k) = true
  · rw [if_pos hany]
    exact lookupKey_mapUpdate_other m k v k' h
  · rw [if_neg hany]
    rw [lookupKey_append, lookupKey_single_ne k k' v h, optionOr_none]

theorem propFold_lookup_preserve (rows : List (String × Json × Bool))
    (acc : List (String × Json)) (k : String) (h : ∀ r ∈ rows, r.1 ≠ k) :
    lookupKey (rows.foldl (fun (a : List (String × Json)) r =>
        if r.1 = "" then a else mapSet a r.1 r.2.1) acc) k = lookupKey acc k := by
  induction rows generalizing acc with
  | nil => rfl
  | cons r rest ih =>
    simp only [List.foldl_cons]
    by_cases h1 : r.1 = ""
    · rw [if_pos h1]
      exact ih acc (fun r' hr' => h r' (List.mem_cons_of_mem r hr'))
    · rw [if_neg h1]
      rw [ih _ (fun r' hr' => h r' (List.mem_cons_of_mem r hr'))]
      exact lookupKey_mapSet_other acc r.1 r.2.1 k
        (fun e => h r (List.mem_cons_self r rest) e.symm)

theorem propFold_lookup (rows : List (String × Json × Bool))
    (acc : List (String × Json)) (r0 : String × Json × Bool)
    (hmem : r0 ∈ rows) (hne : r0.1 ≠ "")
    (hnodup : (rows.map (fun r => r.1)).Nodup) :
    lookupKey (rows.foldl (fun (a : List (String × Json)) r =>
        if r.1 = "" then a else mapSet a r.1 r.2.1) acc) r0.1 = some r0.2.1 := by
  induction rows generalizing acc with
  | nil => simp at hmem
  | cons r rest ih =>
    simp only [List.map_cons, List.nodup_cons] at hnodup
    simp only [List.foldl_cons]
    rcases List.mem_cons.mp hmem with rfl | hmemRest
    · rw [if_neg hne]
      have hrest : ∀ r' ∈ rest, r'.1 ≠ r0.1 := by
        intro r' hr' he
        exact hnodup.1 (he ▸ List.mem_map_of_mem (fun r => r.1) hr')
      rw [propFold_lookup_preserve rest _ r0.1 hrest]
      exact lookupKey_mapSet_self acc r0.1 r0.2.1
    · by_cases h1 : r.1 = ""
      · rw [if_pos h1]
        exact ih _ hmemRest hnodup.2
      · rw [if_neg h1]
        exact ih _ hmemRest hnodup.2

theorem requiredFold_mem (rows : List (String × Json × Bool))
    (r0 : String × Json × Bool) (hmem : r0 ∈ rows) (hne : r0.1 ≠ "")
    (hnodup : (rows.map (fun r => r.1)).Nodup) :
    (r0.1 ∈ rows.foldl (fun (a : List String) r =>
        if r.1 = "" then a else (if r.2.2 then a ++ [r.1] else a)) []) ↔
      r0.2.2 = true := by
  rw [requiredFold_eq]
  simp only [List.nil_append]
  constructor
  · intro h
    rcases List.mem_map.mp h with ⟨r, hrfil, hr1⟩
    have hrmem := List.mem_of_mem_filter hrfil
    have hreq : r = r0 := List.inj_on_of_nodup_map hnodup hrmem hmem hr1
    have hpred := List.of_mem_filter hrfil
    rw [hreq] at hpred
    simp only [Bool.and_eq_true] at hpred
    exact hpred.2
  · intro hflag
    apply List.mem_map.mpr
    refine ⟨r0, ?_, rfl⟩
    apply List.mem_filter.mpr
    refine ⟨hmem, ?_⟩
    simp [hne, hflag]

theorem lookupKey_cons_ne {α : Type} (k' : String) (v : α)
    (m : List (String × α)) (k : String) (h : (k' == k) = false) :
    lookupKey ((k', v) :: m) k = lookupKey m k := by
  simp [lookupKey, List.find?, h]

theorem lookupKey_cons_eq {α : Type} (k : String) (v : α) (m : List (String × α)) :
    lookupKey ((k, v) :: m) k = some v := by
  simp [lookupKey, List.find?]

/-- C4: in `buildSimpleObjectSchema`, every property with a non-empty
cleaned name (names are unique per object type) gets as schema the
classification of its undefined-stripped type, and appears in
`required` exactly when the undefined-split did not mark it optional
and the property itself is not declared optional.  In particular a
property typed `T | undefined` is split to types `[T]` with the
optional mark set — so it is absent from `required` and its schema is
the schema of `T` alone — while a plain non-optional property is
required. -/
theorem objectProperty_optionality (oracle : SchemaOracle) (sym : Option TsSymbol)
    (args : List Ty) (props : List (String × Bool × Ty)) (idx : Option Ty)
    (hnames : (props.map (fun p => cleanSymbolName p.1)).Nodup) :
    ∀ x ∈ props, cleanSymbolName x.1 ≠ "" →
      (lookupKey (jsonObjFields
          ((buildSimpleObjectSchema oracle (Ty.obj sym args props idx)).getField
            "properties")) (cleanSymbolName x.1) =
        some (getSchemaFor oracle (splitUndefined x.2.2).types)) ∧
      ((Json.str (cleanSymbolName x.1)) ∈ jsonArrElems
          ((buildSimpleObjectSchema oracle (Ty.obj sym args props idx)).getField
            "required") ↔
        ((splitUndefined x.2.2).optional = false ∧ x.2.1 = false)) ∧
      (∀ T, x.2.2 = Ty.union [T, Ty.undefT] → T.isUndefined = false →
        splitUndefined x.2.2 = ⟨[T], true⟩ ∧
        getSchemaFor oracle [T] = getSchema oracle T) := by
  intro x hx hne
  simp only [buildSimpleObjectSchema, Ty.getProperties, Ty.getStringIndexType]
  set rows := props.attach.map (fun y =>
    (cleanSymbolName y.1.1,
     getSchemaFor oracle (splitUndefined y.1.2.2).types,
     (!(splitUndefined y.1.2.2).optional && !y.1.2.1))) with hrows
  set P := rows.foldl
    (fun (acc : List (String × Json)) r =>
      if r.1 = "" then acc else mapSet acc r.1 r.2.1) [] with hP
  set R := rows.foldl
    (fun (acc : List String) r =>
      if r.1 = "" then acc else (if r.2.2 then acc ++ [r.1] else acc)) [] with hR
  have hmemrow : (cleanSymbolName x.1,
      getSchemaFor oracle (splitUndefined x.2.2).types,
      (!(splitUndefined x.2.2).optional && !x.2.1)) ∈ rows := by
    rw [hrows]
    exact List.mem_map.mpr ⟨⟨x, hx⟩, List.mem_attach _ _, rfl⟩
  have hnoduprows : (rows.map (fun r => r.1)).Nodup := by
    rw [hrows, List.map_map]
    have : ((fun (r : String × Json × Bool) => r.1) ∘ (fun y : {p // p ∈ props} =>
        (cleanSymbolName y.1.1,
         getSchemaFor oracle (splitUndefined y.1.2.2).types,
         (!(splitUndefined y.1.2.2).optional && !y.1.2.1)))) =
        (fun y : {p // p ∈ props} => cleanSymbolName y.1.1) := rfl
    rw [this, List.attach_map_val props (fun p => cleanSymbolName p.1)]
    exact hnames
  have hlook : lookupKey P (cleanSymbolName x.1) =
      some (getSchemaFor oracle (splitUndefined x.2.2).types) :=
    propFold_lookup rows [] _ hmemrow hne hnoduprows
  have hreqiff : (cleanSymbolName x.1 ∈ R) ↔
      ((!(splitUndefined x.2.2).optional && !x.2.1)) = true :=
    requiredFold_mem rows _ hmemrow hne hnoduprows
  have hPne : P ≠ [] := by
    intro h0
    rw [h0] at hlook
    simp [lookupKey, List.find?] at hlook
  have hPlen : P.length > 0 := List.length_pos.mpr hPne
  have hflagiff : ((!(splitUndefined x.2.2).optional && !x.2.1) = true) ↔
      ((splitUndefined x.2.2).optional = false ∧ x.2.1 = false) := by
    simp [Bool.and_eq_true, Bool.not_eq_true']
  have hsplitpart : ∀ T : Ty, x.2.2 = Ty.union [T, Ty.undefT] →
      T.isUndefined = false →
      splitUndefined x.2.2 = ⟨[T], true⟩ ∧
      getSchemaFor oracle [T] = getSchema oracle T := by
    intro T hT hTU
    constructor
    · rw [hT]
      have hfil : List.filter (fun u => !u.isUndefined) [T, Ty.undefT] = [T] := by
        rw [List.filter_cons, List.filter_cons, List.filter_nil]
        rw [hTU]
        simp [Ty.isUndefined]
      simp [splitUndefined, Ty.isUnion, Ty.getUnionTypes, hfil]
    · simp only [getSchemaFor]
  refine ⟨?_, ?_, hsplitpart⟩
  · rw [if_pos hPlen]
    by_cases hRlen : R.length > 0
    · rw [if_pos hRlen]
      cases idx with
      | none =>
        simp only [Json.getField, List.cons_append, List.nil_append,
          List.append_assoc]
        rw [lookupKey_cons_ne _ _ _ _ (by decide), lookupKey_cons_eq]
        simpa [jsonObjFields] using hlook
      | some it =>
        simp only [Json.getField, List.cons_append, List.nil_append,
          List.append_assoc]
        rw [lookupKey_cons_ne _ _ _ _ (by decide), lookupKey_cons_eq]
        simpa [jsonObjFields] using hlook
    · rw [if_neg hRlen]
      cases idx with
      | none =>
        simp only [Json.getField, List.cons_append, List.nil_append,
          List.append_assoc]
        rw [lookupKey_cons_ne _ _ _ _ (by decide), lookupKey_cons_eq]
        simpa [jsonObjFields] using hlook
      | some it =>
        simp only [Json.getField, List.cons_append, List.nil_append,
          List.append_assoc]
        rw [lookupKey_cons_ne _ _ _ _ (by decide), lookupKey_cons_eq]
        simpa [jsonObjFields] using hlook
  · rw [if_pos hPlen]
    by_cases hRlen : R.length > 0
    · rw [if_pos hRlen]
      have hfin : ∀ rest : List (String × Json),
          (Json.str (cleanSymbolName x.1) ∈ jsonArrElems
            (Json.getField (Json.obj (("type", Json.str "object") ::
              ("properties", Json.obj P) ::
              ("required", Json.arr (R.map Json.str)) :: rest)) "required")) ↔
            ((splitUndefined x.2.2).optional = false ∧ x.2.1 = false) := by
        intro rest
        simp only [Json.getField]
        rw [lookupKey_cons_ne _ _ _ _ (by decide),
          lookupKey_cons_ne _ _ _ _ (by decide), lookupKey_cons_eq]
        rw [← hflagiff, ← hreqiff]
        simp [jsonArrElems, List.mem_map, Json.str.injEq]
      cases idx with
      | none =>
        simpa [List.cons_append, List.nil_append, List.append_assoc] using hfin []
      | some it =>
        simpa [List.cons_append, List.nil_append, List.append_assoc] using
          hfin [("additionalProperties", getSchema oracle it)]
    · rw [if_neg hRlen]
      have hRnil : R = [] := by
        cases hcase : R with
        | nil => rfl
        | cons a t =>
          exfalso
          apply hRlen
          rw [hcase]
          simp
      have hflagfalse : ¬(((splitUndefined x.2.2).optional = false ∧ x.2.1 = false)) := by
        rw [← hflagiff, ← hreqiff, hRnil]
        simp
      have hfin : ∀ rest : List (String × Json),
          (Json.str (cleanSymbolName x.1) ∈ jsonArrElems
            (Json.getField (Json.obj (("type", Json.str "object") ::
              ("properties", Json.obj P) :: rest)) "required")) ↔
            (Json.str (cleanSymbolName x.1) ∈ jsonArrElems
              (lookupKey rest "required")) := by
        intro rest
        simp only [Json.getField]
        rw [lookupKey_cons_ne _ _ _ _ (by decide),
          lookupKey_cons_ne _ _ _ _ (by decide)]
      cases idx with
      | none =>
        rw [iff_false_intro hflagfalse]
        simp only [List.cons_append, List.nil_append, List.append_assoc]
        rw [hfin []]
        simp [jsonArrElems, lookupKey, List.find?]
      | some it =>
        rw [iff_false_intro hflagfalse]
        simp only [List.cons_append, List.nil_append, List.append_assoc]
        rw [hfin [("additionalProperties", getSchema oracle it)]]
        simp [jsonArrElems, lookupKey, List.find?]

theorem objectProperty_optionality_witness :
    (lookupKey (jsonObjFields
        ((buildSimpleObjectSchema noNominalOracle
          (Ty.obj none [] wProps none)).getField "properties"))
        (cleanSymbolName "nick") =
      some (getSchemaFor noNominalOracle
        (splitUndefined (Ty.union [Ty.strT, Ty.undefT])).types)) ∧
    ((Json.str (cleanSymbolName "nick")) ∈ jsonArrElems
        ((buildSimpleObjectSchema noNominalOracle
          (Ty.obj none [] wProps none)).getField "required") ↔
      ((splitUndefined (Ty.union [Ty.strT, Ty.undefT])).optional = false ∧
        false = false)) ∧
    (∀ T, Ty.union [Ty.strT, Ty.undefT] = Ty.union [T, Ty.undefT] →
      T.isUndefined = false →
      splitUndefined (Ty.union [Ty.strT, Ty.undefT]) = ⟨[T], true⟩ ∧
      getSchemaFor noNominalOracle [T] = getSchema noNominalOracle T) :=
  objectProperty_optionality noNominalOracle none [] wProps none (by decide)
    ("nick", false, Ty.union [Ty.strT, Ty.undefT])
    (List.mem_cons_of_mem _ (List.mem_cons_self _ _)) (by decide)
